import Mathlib

/-!
Verification of the EDUHELPER PDF question-answering pipeline
(`Advanced_Projects/EDUHELPER/main.py`).

The repository file is glue around external libraries: the text splitter,
the vector store, the PDF reader and the generative service are all
third-party.  Where the deciding behaviour lives in those libraries, the
corresponding Lean definition is modelled from the specification document
(marked `Modelled from the spec:`); everything that is literal in
`main.py` (the prompt template, model identifiers, the disclaimer string,
the data flow of each function) is transcribed from the source.

Texts are modelled as `List Char`, matching Python strings as character
sequences.
-/

/-- Modelled from the spec: the chunker contract of
`RecursiveCharacterTextSplitter(chunk_size=10000, chunk_overlap=1000).split_text`
(external library code, not in this repository).  The spec describes a
sliding window: each chunk has length at most 10000, consecutive chunks
overlap in exactly 1000 characters, and the empty input yields an empty
sequence.  `splitStep` is the fuel-indexed structural recursion; the fuel
is only there to make the definition structurally terminating. -/
def splitStep : Nat → List Char → List (List Char)
  | _, [] => []
  | 0, a :: l => [a :: l]
  | f + 1, a :: l =>
      if (a :: l).length ≤ 10000 then [a :: l]
      else (a :: l).take 10000 :: splitStep f ((a :: l).drop 9000)

/-- Modelled from the spec: `get_text_chunks` from `main.py`, with the
library splitter replaced by the sliding-window chunker the spec
describes.  `text.length` is always enough fuel. -/
def get_text_chunks (text : List Char) : List (List Char) :=
  splitStep text.length text

lemma splitStep_nil (f : Nat) : splitStep f [] = [] := by
  cases f <;> rfl

/-- Any two sufficiently large fuels compute the same chunk sequence. -/
lemma splitStep_fuel_eq :
    ∀ (f g : Nat) (t : List Char), t.length ≤ 9000 * f + 10000 →
      t.length ≤ 9000 * g + 10000 → splitStep f t = splitStep g t := by
  intro f
  induction f with
  | zero =>
    intro g t hf hg
    cases t with
    | nil => simp [splitStep_nil]
    | cons a l =>
      cases g with
      | zero => rfl
      | succ g =>
        simp only [splitStep]
        rw [if_pos]
        simpa using hf
  | succ f ih =>
    intro g t hf hg
    cases t with
    | nil => simp [splitStep_nil]
    | cons a l =>
      cases g with
      | zero =>
        simp only [splitStep]
        rw [if_pos]
        simpa using hg
      | succ g =>
        simp only [splitStep]
        by_cases h : (a :: l).length ≤ 10000
        · rw [if_pos h, if_pos h]
        · rw [if_neg h, if_neg h]
          have hlen : ((a :: l).drop 9000).length = (a :: l).length - 9000 := by
            simp
          have h1 : ((a :: l).drop 9000).length ≤ 9000 * f + 10000 := by
            rw [hlen]; omega
          have h2 : ((a :: l).drop 9000).length ≤ 9000 * g + 10000 := by
            rw [hlen]; omega
          rw [ih g _ h1 h2]

lemma get_text_chunks_nil : get_text_chunks [] = [] := rfl

lemma get_text_chunks_small {t : List Char} (hne : t ≠ [])
    (hle : t.length ≤ 10000) : get_text_chunks t = [t] := by
  cases t with
  | nil => exact absurd rfl hne
  | cons a l =>
    show splitStep (a :: l).length (a :: l) = [a :: l]
    simp only [List.length_cons, splitStep]
    rw [if_pos]
    simpa using hle

lemma get_text_chunks_big {t : List Char} (h : 10000 < t.length) :
    get_text_chunks t = t.take 10000 :: get_text_chunks (t.drop 9000) := by
  cases t with
  | nil => simp at h
  | cons a l =>
    simp only [List.length_cons] at h
    show splitStep (a :: l).length (a :: l) = _
    simp only [List.length_cons, splitStep]
    rw [if_neg (by omega)]
    show _ :: splitStep l.length ((a :: l).drop 9000) =
      _ :: splitStep ((a :: l).drop 9000).length ((a :: l).drop 9000)
    congr 1
    refine splitStep_fuel_eq _ _ _ ?_ ?_ <;>
      simp only [List.length_drop, List.length_cons] at h ⊢ <;> omega

/-- Induction principle following the recursion of the chunker. -/
lemma chunks_induction (P : List Char → Prop) (h0 : P [])
    (h1 : ∀ t : List Char, t ≠ [] → t.length ≤ 10000 → P t)
    (h2 : ∀ t : List Char, 10000 < t.length → P (t.drop 9000) → P t) :
    ∀ t, P t := by
  suffices h : ∀ n (t : List Char), t.length ≤ n → P t by
    exact fun t => h t.length t le_rfl
  intro n
  induction n with
  | zero =>
    intro t ht
    have : t = [] := List.length_eq_zero.mp (Nat.le_zero.mp ht)
    exact this ▸ h0
  | succ n ih =>
    intro t ht
    cases t with
    | nil => exact h0
    | cons a l =>
      by_cases hle : (a :: l).length ≤ 10000
      · exact h1 _ (by simp) hle
      · refine h2 _ (by omega) (ih _ ?_)
        simp only [List.length_drop, List.length_cons] at ht ⊢
        omega

/-- Integer ceiling division `⌈a / b⌉` for positive `b`, via the identity
`⌈a / b⌉ = -⌊-a / b⌋` (`/` on `ℤ` is floor division for positive `b`). -/
def ceilDiv (a b : ℤ) : ℤ := -((-a) / b)

/-- Chunk count in closed form: a nonempty text of length `L` yields
`(L - 1001) / 9000 + 1` chunks (natural-number arithmetic). -/
lemma get_text_chunks_length (t : List Char) (hne : t ≠ []) :
    (get_text_chunks t).length = (t.length - 1001) / 9000 + 1 := by
  revert hne
  induction t using chunks_induction with
  | h0 => intro h; exact absurd rfl h
  | h1 t hne hle =>
    intro _
    rw [get_text_chunks_small hne hle]
    simp only [List.length_singleton]
    omega
  | h2 t hbig ih =>
    intro _
    rw [get_text_chunks_big hbig]
    have hdne : t.drop 9000 ≠ [] := by
      have : (t.drop 9000).length = t.length - 9000 := by simp
      intro hcon
      rw [hcon] at this
      simp only [List.length_nil] at this
      omega
    have := ih hdne
    simp only [List.length_cons, this, List.length_drop]
    omega

/-- The closed-form count coincides with `max 1 ⌈(L - 1000) / 9000⌉`. -/
lemma count_eq_ceil (L : ℕ) (h : 1 ≤ L) :
    (((L - 1001) / 9000 + 1 : ℕ) : ℤ) = max 1 (ceilDiv ((L : ℤ) - 1000) 9000) := by
  simp only [ceilDiv]
  omega

/-- Claim C1 (amended): for every nonempty text of length `L`, chunking with
maximum length 10000 and overlap 1000 yields exactly
`max 1 ⌈(L - 1000) / 9000⌉` chunks; in particular any nonempty text of
length at most 10000 yields exactly one chunk; the empty text yields zero
chunks. -/
theorem chunk_count_amended (t : List Char) :
    (t = [] → get_text_chunks t = []) ∧
    (t ≠ [] →
      ((get_text_chunks t).length : ℤ) =
        max 1 (ceilDiv ((t.length : ℤ) - 1000) 9000)) ∧
    (t ≠ [] → t.length ≤ 10000 → (get_text_chunks t).length = 1) := by
  refine ⟨fun h => h ▸ get_text_chunks_nil, fun hne => ?_, fun hne hle => ?_⟩
  · rw [get_text_chunks_length t hne]
    exact count_eq_ceil t.length (by
      cases t with
      | nil => exact absurd rfl hne
      | cons a l => simp)
  · rw [get_text_chunks_small hne hle]
    rfl

/-- Witness for `chunk_count_amended` at the one-character text. -/
theorem chunk_count_amended_witness :
    (['a'] : List Char) ≠ [] ∧ (get_text_chunks ['a']).length = 1 :=
  ⟨by decide, (chunk_count_amended ['a']).2.2 (by decide) (by decide)⟩

/-- Claim C1 counterexample: the claim as stated fails.  A text of length 1
produces one chunk while `⌈(1 - 1000) / 9000⌉ = 0`, and the empty text
(length 0 ≤ 10000) produces zero chunks, not one. -/
theorem chunk_count_counterexample :
    ¬ ((((get_text_chunks ['a']).length : ℤ) = ceilDiv ((1 : ℤ) - 1000) 9000) ∧
       (get_text_chunks ([] : List Char)).length = 1) := by
  decide

/-- Claim C7: every chunk produced by the chunker has length at most the
configured maximum chunk length, 10000 characters. -/
theorem chunk_length_le (t c : List Char) (hc : c ∈ get_text_chunks t) :
    c.length ≤ 10000 := by
  revert c
  induction t using chunks_induction with
  | h0 => intro c hc; rw [get_text_chunks_nil] at hc; exact absurd hc (by simp)
  | h1 t hne hle =>
    intro c hc
    rw [get_text_chunks_small hne hle] at hc
    rw [List.mem_singleton.mp hc]
    exact hle
  | h2 t hbig ih =>
    intro c hc
    rw [get_text_chunks_big hbig] at hc
    rcases List.mem_cons.mp hc with h | h
    · rw [h]
      simp only [List.length_take]
      omega
    · exact ih c h

/-- Witness for `chunk_length_le` on a concrete two-character text. -/
theorem chunk_length_le_witness :
    (['a', 'b'] : List Char) ∈ get_text_chunks ['a', 'b'] ∧
      (['a', 'b'] : List Char).length ≤ 10000 :=
  ⟨by decide, chunk_length_le ['a', 'b'] ['a', 'b'] (by decide)⟩

/-- Concatenation of the chunk sequence with the duplicated 1000-character
overlap region of every chunk after the first removed (the reassembly the
spec's round-trip property describes). -/
def reassemble : List (List Char) → List Char
  | [] => []
  | c :: cs => c ++ (cs.map (fun d => d.drop 1000)).flatten

/-- The first chunk of a nonempty text starts with the text's first 1000
characters. -/
lemma first_chunk (t : List Char) (hne : t ≠ []) :
    ∃ c cs, get_text_chunks t = c :: cs ∧ c.take 1000 = t.take 1000 := by
  by_cases hle : t.length ≤ 10000
  · exact ⟨t, [], get_text_chunks_small hne hle, rfl⟩
  · refine ⟨t.take 10000, _, get_text_chunks_big (by omega), ?_⟩
    rw [List.take_take]
    norm_num

lemma drop_nonempty (t : List Char) (hbig : 10000 < t.length) :
    t.drop 9000 ≠ [] := by
  intro hcon
  have : (t.drop 9000).length = t.length - 9000 := by simp
  rw [hcon] at this
  simp only [List.length_nil] at this
  omega

/-- Dropping the leading 1000-character overlap from every chunk and
concatenating yields the text minus its first 1000 characters. -/
lemma flatten_drop_overlap (t : List Char) (hne : t ≠ []) :
    ((get_text_chunks t).map (fun d => d.drop 1000)).flatten = t.drop 1000 := by
  revert hne
  induction t using chunks_induction with
  | h0 => intro h; exact absurd rfl h
  | h1 t hne hle =>
    intro _
    rw [get_text_chunks_small hne hle]
    simp
  | h2 t hbig ih =>
    intro _
    rw [get_text_chunks_big hbig]
    simp only [List.map_cons, List.flatten_cons, ih (drop_nonempty t hbig)]
    rw [List.drop_take, List.drop_drop]
    calc (t.drop 1000).take (10000 - 1000) ++ t.drop (1000 + 9000)
        = (t.drop 1000).take 9000 ++ (t.drop 1000).drop 9000 := by
          rw [List.drop_drop]
      _ = t.drop 1000 := List.take_append_drop _ _

/-- Consecutive chunks overlap: the last 1000 characters of each chunk are
the first 1000 characters of the next. -/
lemma chunks_overlap (t : List Char) :
    List.Chain' (fun a b : List Char => a.drop (a.length - 1000) = b.take 1000)
      (get_text_chunks t) := by
  induction t using chunks_induction with
  | h0 => rw [get_text_chunks_nil]; exact List.chain'_nil
  | h1 t hne hle =>
    rw [get_text_chunks_small hne hle]
    exact List.chain'_singleton t
  | h2 t hbig ih =>
    rw [get_text_chunks_big hbig]
    obtain ⟨c, cs, heq, hc⟩ := first_chunk (t.drop 9000) (drop_nonempty t hbig)
    rw [heq]
    rw [heq] at ih
    refine List.chain'_cons.mpr ⟨?_, ih⟩
    have hlen : (t.take 10000).length = 10000 := by
      simp only [List.length_take]
      omega
    rw [hlen, List.drop_take, hc]

/-- Claim C2: in the chunk sequence each consecutive pair overlaps in
exactly the configured 1000 characters (the tail of each chunk equals the
head of its successor), and reassembling the chunks — dropping the
duplicated 1000-character overlap of every chunk after the first —
reconstructs the input text exactly. -/
theorem chunk_overlap_roundtrip (t : List Char) :
    List.Chain' (fun a b : List Char => a.drop (a.length - 1000) = b.take 1000)
      (get_text_chunks t) ∧
    reassemble (get_text_chunks t) = t := by
  refine ⟨chunks_overlap t, ?_⟩
  by_cases hne : t = []
  · rw [hne]; rfl
  by_cases hle : t.length ≤ 10000
  · rw [get_text_chunks_small hne hle]
    show t ++ ([] : List (List Char)).flatten = t
    simp
  · rw [get_text_chunks_big (by omega)]
    show t.take 10000 ++
      ((get_text_chunks (t.drop 9000)).map (fun d => d.drop 1000)).flatten = t
    rw [flatten_drop_overlap (t.drop 9000) (drop_nonempty t (by omega))]
    rw [List.drop_drop]
    exact List.take_append_drop _ _

/-- Modelled from the spec: `FAISS.similarity_search` (external library
code, not in this repository).  The spec's contract: given a query, return
the `k` indexed chunks whose embeddings are nearest by the similarity
metric, most-similar first.  The embedding-and-compare step is abstracted
into a `score` function; retrieval sorts the indexed chunks by descending
score and keeps the first `k`.  The source calls it with the library's
default `k = 4`. -/
def similarity_search (score : List Char → List Char → ℤ) (q : List Char)
    (index : List (List Char)) (k : ℕ) : List (List Char) :=
  (index.insertionSort (fun a b => score q b ≤ score q a)).take k

/-- The `k` used by `user_input` in `main.py`: the library default. -/
def defaultK : ℕ := 4

lemma mem_similarity_search (score : List Char → List Char → ℤ)
    (q c : List Char) (index : List (List Char)) (k : ℕ)
    (hc : c ∈ similarity_search score q index k) : c ∈ index := by
  have h1 : c ∈ index.insertionSort (fun a b => score q b ≤ score q a) :=
    List.take_subset k _ hc
  exact (List.perm_insertionSort _ index).subset h1

/-- Claim C3: retrieval from an index of `N` chunks with `k ≤ N` returns
exactly `k` results, each drawn from the indexed chunk set, ordered
most-similar (highest score) first. -/
theorem retrieval_exact_k (score : List Char → List Char → ℤ) (q : List Char)
    (index : List (List Char)) (k : ℕ) (hk : k ≤ index.length) :
    (similarity_search score q index k).length = k ∧
    (∀ c ∈ similarity_search score q index k, c ∈ index) ∧
    List.Sorted (fun a b => score q b ≤ score q a)
      (similarity_search score q index k) := by
  refine ⟨?_, fun c hc => mem_similarity_search score q c index k hc, ?_⟩
  · simp only [similarity_search, List.length_take, List.length_insertionSort]
    omega
  · haveI : IsTotal (List Char) (fun a b => score q b ≤ score q a) :=
      ⟨fun a b => le_total (score q b) (score q a)⟩
    haveI : IsTrans (List Char) (fun a b => score q b ≤ score q a) :=
      ⟨fun _ _ _ hab hbc => le_trans hbc hab⟩
    exact ((List.sorted_insertionSort _ index).sublist (List.take_sublist _ _))

/-- Witness for `retrieval_exact_k`: an index of five one-character chunks,
scored by a concrete function, queried with the default `k = 4`. -/
theorem retrieval_exact_k_witness :
    defaultK ≤ ([['a'], ['b'], ['c'], ['d'], ['e']] : List (List Char)).length ∧
    ((similarity_search (fun _ c => (c.length : ℤ)) ['q']
        [['a'], ['b'], ['c'], ['d'], ['e']] defaultK).length = defaultK ∧
      (∀ c ∈ similarity_search (fun _ c => (c.length : ℤ)) ['q']
          [['a'], ['b'], ['c'], ['d'], ['e']] defaultK,
        c ∈ ([['a'], ['b'], ['c'], ['d'], ['e']] : List (List Char))) ∧
      List.Sorted (fun a b => ((b.length : ℤ)) ≤ (a.length : ℤ))
        (similarity_search (fun _ c => (c.length : ℤ)) ['q']
          [['a'], ['b'], ['c'], ['d'], ['e']] defaultK)) :=
  ⟨by decide,
    retrieval_exact_k (fun _ c => (c.length : ℤ)) ['q']
      [['a'], ['b'], ['c'], ['d'], ['e']] defaultK (by decide)⟩

/-- Modelled from the spec: `get_vector_store` from `main.py`, with
`FAISS.from_texts` / `save_local` (external library code) replaced by the
spec's contract — the serialized index at the fixed local path is a pure
function of the chunks being indexed, fully overwriting whatever was
stored before.  The store state is the optional content of the fixed
path `faiss_index`. -/
def get_vector_store (text_chunks : List (List Char))
    (_prior : Option (List (List Char))) : Option (List (List Char)) :=
  some text_chunks

/-- Claim C4: an index build serializes the new index to the fixed path
regardless of any prior contents (full overwrite), and a query issued
after a rebuild never returns a chunk that is exclusively from the earlier
document set (present in the old chunks but not in the new ones). -/
theorem rebuild_replaces_index (newChunks oldChunks : List (List Char))
    (prior : Option (List (List Char))) (score : List Char → List Char → ℤ)
    (q c : List Char) (k : ℕ) (_hco : c ∈ oldChunks) (hcn : c ∉ newChunks) :
    get_vector_store newChunks prior = some newChunks ∧
    c ∉ similarity_search score q
        ((get_vector_store newChunks prior).getD []) k := by
  refine ⟨rfl, fun hc => hcn ?_⟩
  exact mem_similarity_search score q c newChunks k hc

/-- Witness for `rebuild_replaces_index`: rebuild over chunk `"y"` after an
earlier set containing only `"x"`. -/
theorem rebuild_replaces_index_witness :
    (['x'] : List Char) ∈ ([['x']] : List (List Char)) ∧
    (['x'] : List Char) ∉ ([['y']] : List (List Char)) ∧
    (get_vector_store [['y']] (some [['x']]) = some [['y']] ∧
      (['x'] : List Char) ∉ similarity_search (fun _ c => (c.length : ℤ)) ['q']
        ((get_vector_store [['y']] (some [['x']])).getD []) defaultK) :=
  ⟨by decide, by decide,
    rebuild_replaces_index [['y']] [['x']] (some [['x']])
      (fun _ c => (c.length : ℤ)) ['q'] ['x'] defaultK (by decide) (by decide)⟩

/-- The prompt template of `get_conversational_chain` in `main.py`,
transcribed character-for-character from the Python triple-quoted literal
(apostrophes written as `\x27`). -/
def prompt_template : String :=
  "\n    Answer the question in detail using the provided context. If the answer cannot be found \n    in the context or can\x27t be answered with the knowledge you already have, respond with \n    \x27answer not available in the context\x27. Do not provide any misleading or made-up information\n    until and unless the question requires you to generate content based on the given context.\n\n\n    Context:\n {context}?\n\n    Question: \n{question}\n\n\n    Answer:\n    "

/-- Modelled from the spec: langchain `PromptTemplate` substitution
(external library code) — the template rendered with the context and the
question filled into their placeholders. -/
def render (context question : String) : String :=
  (prompt_template.replace "{context}" context).replace "{question}" question

/-- A request to the remote generative-language service: model identifier,
sampling temperature, and the rendered prompt. -/
structure GenRequest where
  model : String
  temperature : ℚ
  prompt : String
deriving Repr, DecidableEq

/-- `get_conversational_chain` from `main.py`: a chain sending one request
with the fixed model identifier `gemini-pro`, fixed temperature `0.7` and
the rendered prompt. -/
def get_conversational_chain (context question : String) : GenRequest :=
  { model := "gemini-pro", temperature := 7 / 10, prompt := render context question }

/-- Modelled from the spec: the langchain stuff-documents chain (external
library code) joins the retrieved chunks into the single context string. -/
def stuff_context (docs : List String) : String :=
  String.intercalate "\n\n" docs

/-- The literal fallback string the template instructs the model to use. -/
def fallback : String := "answer not available in the context"

set_option maxRecDepth 1000000 in
/-- Claim C5: for every question and sequence of retrieved chunks, the
answerer renders the one fixed prompt template populated with the chunks
as context and with the question, the template contains the literal
fallback instruction string and both placeholders, and the request uses
the fixed model identifier `gemini-pro` with fixed temperature `0.7`. -/
theorem answerer_fixed_prompt (docs : List String) (question : String) :
    (get_conversational_chain (stuff_context docs) question).model = "gemini-pro" ∧
    (get_conversational_chain (stuff_context docs) question).temperature = 7 / 10 ∧
    (get_conversational_chain (stuff_context docs) question).prompt =
      render (String.intercalate "\n\n" docs) question ∧
    fallback.toList <:+: prompt_template.toList ∧
    "{context}".toList <:+: prompt_template.toList ∧
    "{question}".toList <:+: prompt_template.toList :=
  ⟨rfl, rfl, rfl, by decide, by decide, by decide⟩

/-- Modelled from the spec: `FAISS.load_local("faiss_index", ...)`
(external library code).  It fails when a question is asked before any
index was built — no serialized index exists at the fixed local path —
and the spec calls this the `MissingIndex` condition, propagated raw.
The store state is the optional content of the fixed path. -/
def load_local : Option (List (List Char)) → Except String (List (List Char))
  | none => Except.error "MissingIndex: no serialized index at faiss_index"
  | some index => Except.ok index

/-- The fixed disclaimer string appended in `user_input` in `main.py`,
transcribed character-for-character. -/
def disclaimer : String :=
  "\n\nNOTE:\nThese Responses are generated by AI so they may not be accurate, please verify the answers from the original sources"

/-- The single generative request `user_input` sends for a question and a
loaded index: the conversational chain applied to the four retrieved
chunks (stuffed into the context) and the question. -/
def retrieval_request (score : List Char → List Char → ℤ) (q : List Char)
    (index : List (List Char)) : GenRequest :=
  get_conversational_chain
    (stuff_context ((similarity_search score q index defaultK).map
      (fun d => String.mk d)))
    (String.mk q)

/-- `user_input` from `main.py`: load the serialized index, retrieve the
most similar chunks, send the rendered prompt to the generative service
(abstracted as `gen`), and display the answer with the disclaimer
appended.  No error is caught: a load failure propagates raw. -/
def user_input (score : List Char → List Char → ℤ) (gen : GenRequest → String)
    (user_question : List Char) (store : Option (List (List Char))) :
    Except String String :=
  match load_local store with
  | Except.error e => Except.error e
  | Except.ok index =>
      Except.ok (gen (retrieval_request score user_question index) ++ disclaimer)

/-- Claim C8: asking a question when no index has ever been built (the
store at the fixed path is empty) fails with the raw load error — the code
catches and translates nothing, so the `MissingIndex` failure aborts the
action and surfaces unchanged. -/
theorem missing_index_propagates (score : List Char → List Char → ℤ)
    (gen : GenRequest → String) (q : List Char) :
    user_input score gen q none =
      Except.error "MissingIndex: no serialized index at faiss_index" ∧
    load_local none =
      Except.error "MissingIndex: no serialized index at faiss_index" :=
  ⟨rfl, rfl⟩

/-- Claim C9: for every answer produced by the generative service, the
displayed output is exactly that answer with the fixed disclaimer string
appended (and so always ends in the disclaimer). -/
theorem output_appends_disclaimer (score : List Char → List Char → ℤ)
    (gen : GenRequest → String) (q : List Char) (index : List (List Char)) :
    user_input score gen q (some index) =
      Except.ok (gen (retrieval_request score q index) ++ disclaimer) ∧
    disclaimer.toList <:+
      (gen (retrieval_request score q index) ++ disclaimer).toList ∧
    disclaimer =
      "\n\nNOTE:\nThese Responses are generated by AI so they may not be accurate, please verify the answers from the original sources" := by
  refine ⟨rfl, ?_, rfl⟩
  show disclaimer.toList <:+ (gen (retrieval_request score q index)).toList ++ disclaimer.toList
  exact List.suffix_append _ _

/-- `get_pdf_text` from `main.py`: a document is its list of per-page
extracted texts; the function folds over the documents in upload order and
over the pages in page order, appending each page's text to the
accumulator with no separator, starting from the empty string. -/
def get_pdf_text (pdf_docs : List (List String)) : String :=
  pdf_docs.foldl (fun text pdf => pdf.foldl (fun t page => t ++ page) text) ""

lemma foldl_append_shift (t : List String) (a : String) :
    t.foldl (fun r s => r ++ s) a = a ++ t.foldl (fun r s => r ++ s) "" := by
  induction t generalizing a with
  | nil => exact (String.append_empty a).symm
  | cons b t ih =>
    simp only [List.foldl_cons]
    rw [ih (a ++ b), ih ("" ++ b), String.empty_append, String.append_assoc]

lemma string_join_cons (a : String) (t : List String) :
    String.join (a :: t) = a ++ String.join t := by
  show (a :: t).foldl (fun r s => r ++ s) "" = a ++ t.foldl (fun r s => r ++ s) ""
  simp only [List.foldl_cons, String.empty_append]
  exact foldl_append_shift t a

lemma string_join_all_empty (l : List String) (h : ∀ p ∈ l, p = "") :
    String.join l = "" := by
  induction l with
  | nil => rfl
  | cons a t ih =>
    have ha : a = "" := h a (List.mem_cons_self a t)
    have ht : String.join t = "" := ih (fun p hp => h p (List.mem_cons_of_mem a hp))
    calc String.join (a :: t) = a ++ String.join t := string_join_cons a t
      _ = "" := by rw [ha, ht]; rfl

/-- Claim C6: the extracted text is the concatenation of all page texts in
page order within each document and in upload order across documents, with
no separator; no documents, or all pages empty, yields the empty string. -/
theorem extractor_concatenates (pdf_docs : List (List String)) :
    get_pdf_text pdf_docs = String.join pdf_docs.flatten ∧
    get_pdf_text [] = "" ∧
    ((∀ p ∈ pdf_docs.flatten, p = "") → get_pdf_text pdf_docs = "") := by
  have hjoin : get_pdf_text pdf_docs = String.join pdf_docs.flatten := by
    show pdf_docs.foldl _ "" = pdf_docs.flatten.foldl (fun r s => r ++ s) ""
    rw [List.foldl_flatten]
  exact ⟨hjoin, rfl, fun h => hjoin ▸ string_join_all_empty _ h⟩

/-- Witness for `extractor_concatenates`: two documents whose pages all
extract to the empty string yield the empty string. -/
theorem extractor_concatenates_witness :
    (∀ p ∈ ([[""], ["", ""]] : List (List String)).flatten, p = "") ∧
    get_pdf_text [[""], ["", ""]] = "" :=
  ⟨by decide, (extractor_concatenates [[""], ["", ""]]).2.2 (by decide)⟩
